import Mathlib

/-!
Verification of the ascii-terminal-player repository: a shallow embedding of
the container codec (`compress.py`, `decompress.py`), the rasterizer,
playback clock and subtitle window (`run.py`, `embedded_video.py`), together
with theorems settling the specification claims.

Byte streams are modelled as `List ℕ` (each entry a byte value), machine
arithmetic as `ℕ`/`ℤ` with explicit bounds, and Python float arithmetic as
exact rational arithmetic over `ℚ`.  Fallible operations return sum types
whose constructors name the Python exception or exit path they model.
-/

namespace AsciiPlayer

/-! ## Python numeric primitives -/

/-- Python `round` applied to a float: round half to even (banker's
rounding), as Python's built-in `round` and `np.round` both do. -/
def roundHalfEven (q : ℚ) : ℤ :=
  if q - (⌊q⌋ : ℚ) < 1/2 then ⌊q⌋
  else if 1/2 < q - (⌊q⌋ : ℚ) then ⌊q⌋ + 1
  else if Even ⌊q⌋ then ⌊q⌋ else ⌊q⌋ + 1

/-- Python `int()` applied to a float/rational: truncation toward zero. -/
def pyInt (q : ℚ) : ℤ :=
  if 0 ≤ q then ⌊q⌋ else -⌊-q⌋

/-! ## Big-endian byte serialization

`int.to_bytes(k)` / `int.from_bytes` in Python default to big-endian. -/

/-- Big-endian byte list of fixed length (`int.to_bytes(len)`; faithful to
Python whenever the value fits, which every theorem assumes explicitly). -/
def toBytesBE (n : ℕ) : ℕ → List ℕ
  | 0 => []
  | l + 1 => toBytesBE (n / 256) l ++ [n % 256]

/-- `int.from_bytes`, big-endian; `fromBytesBE [] = 0` just as in Python. -/
def fromBytesBE (bs : List ℕ) : ℕ :=
  bs.foldl (fun a b => a * 256 + b) 0

/-! ## Container codec (compress.py lines 95-113, decompress.py lines 29-62)

The on-disk format: magic `"thba"`, one fps byte, one compression-flag byte,
a 4-byte chunk count, 4-byte width and height, then length-prefixed chunks.
-/

/-- The ASCII bytes of the magic tag `"thba"`. -/
def thbaMagic : List ℕ := [116, 104, 98, 97]

/-- Serialize the length-prefixed chunk section (compress.py lines 111-113). -/
def chunkStream : List (List ℕ) → List ℕ
  | [] => []
  | c :: cs => toBytesBE c.length 4 ++ c ++ chunkStream cs

/-- Serialize a whole container with an explicit flag byte and count field
(compress.py lines 103-113). -/
def mkContainer (fps flagByte count w h : ℕ) (chunks : List (List ℕ)) : List ℕ :=
  thbaMagic ++ toBytesBE fps 1 ++ toBytesBE flagByte 1 ++
    toBytesBE count 4 ++ toBytesBE w 4 ++ toBytesBE h 4 ++ chunkStream chunks

/-- The encoder: each raster is compressed with `comp` when compression is
enabled (compress.py lines 81-84) and the container is assembled with the
declared dimensions (compress.py lines 103-113).  The chunk compressor itself
(`lz4.frame`) is an external library, passed in as `comp`. -/
def encodeContainer (fps : ℕ) (compress : Bool) (w h : ℕ)
    (frames : List (List ℕ)) (comp : List ℕ → List ℕ) : List ℕ :=
  mkContainer fps (if compress then 1 else 0) frames.length w h
    (frames.map fun fr => if compress then comp fr else fr)

/-- Outcome of running the decoder (`decompress.py main`) on a byte stream.
`asciiError` models the uncaught `UnicodeDecodeError` raised by
`f.read(4).decode("ascii")` when a magic byte is ≥ 128; `badMagic` the
`return 6` path; `corrupt` the uncaught `ValueError` raised by
`Image.frombytes` on a chunk of the wrong decompressed size, carrying the
frames already exported before the crash. -/
inductive DecodeResult where
  | asciiError : DecodeResult
  | badMagic : DecodeResult
  | corrupt (framesSoFar : List (List ℕ)) : DecodeResult
  | ok (hasCompression : Bool) (count w h : ℕ) (frames : List (List ℕ)) : DecodeResult
  deriving DecidableEq, Repr

/-- The decoder's chunk loop (decompress.py lines 47-62): read a 4-byte
length, read that many bytes, decompress when the header flag was set, hand
the result to `Image.frombytes` — which raises unless the payload is exactly
`width*height` bytes — and continue to the next chunk. -/
def decodeChunks (decomp : List ℕ → List ℕ) (hasComp : Bool) (w h : ℕ) :
    ℕ → List ℕ → List (List ℕ) × Bool
  | 0, _ => ([], true)
  | n + 1, s =>
      let len := fromBytesBE (s.take 4)
      let data := (s.drop 4).take len
      let raw := if hasComp then decomp data else data
      if raw.length = w * h then
        let r := decodeChunks decomp hasComp w h n ((s.drop 4).drop len)
        (raw :: r.1, r.2)
      else ([], false)

/-- The decoder (decompress.py lines 29-62), reading the stream sequentially
exactly as the successive `f.read` calls do: decode the 4 magic bytes as
ASCII (raising on a byte ≥ 128), compare against `"thba"` (returning exit
code 6 on mismatch), skip the fps byte, read the compression flag, chunk
count, width and height, then run the chunk loop. -/
def decodeContainer (decomp : List ℕ → List ℕ) (s : List ℕ) : DecodeResult :=
  let magic := s.take 4
  let s1 := s.drop 4
  if magic.any fun b => 128 ≤ b then .asciiError
  else if magic = thbaMagic then
    let s2 := s1.drop 1
    let hasComp : Bool := fromBytesBE (s2.take 1) != 0
    let s3 := s2.drop 1
    let count := fromBytesBE (s3.take 4)
    let s4 := s3.drop 4
    let w := fromBytesBE (s4.take 4)
    let s5 := s4.drop 4
    let h := fromBytesBE (s5.take 4)
    let s6 := s5.drop 4
    let r := decodeChunks decomp hasComp w h count s6
    if r.2 then .ok hasComp count w h r.1 else .corrupt r.1
  else .badMagic

/-- Process exit code produced by each decoder outcome: `return 0` on
success, `return 6` on a bad magic, and interpreter exit code 1 for the two
uncaught exceptions. -/
def decodeExitCode : DecodeResult → ℕ
  | .ok _ _ _ _ _ => 0
  | .badMagic => 6
  | .asciiError => 1
  | .corrupt _ => 1

/-! ## CLI entry points: exit codes

Each `main` is modelled as a function from the outcomes of its filesystem
checks (and, for the decoder, the input byte stream) to the process exit
code, mirroring the branch structure of the source. -/

/-- compress.py `main` (lines 34-44 and the encode body): missing input
gives 2; an existing output plus a reply other than "y" aborts with 0;
otherwise the encode body runs, returning 0 when it completes and exiting 1
when it raises (`bodyOk` abstracts the body's external calls). -/
def compressMainExit (inputExists outputExists replyN replyY bodyOk : Bool) : ℕ :=
  if !inputExists then 2
  else if outputExists && replyN then 0
  else if outputExists && !replyN && !replyY then 0
  else if bodyOk then 0 else 1

/-- decompress.py `main` (lines 15-20 and 29-64): missing input gives 1; an
output path that exists and is not a directory gives 2; otherwise the exit
code of the decode. -/
def decompressMainExit (decomp : List ℕ → List ℕ)
    (inputExists outputCollision : Bool) (s : List ℕ) : ℕ :=
  if !inputExists then 1
  else if outputCollision then 2
  else decodeExitCode (decodeContainer decomp s)

/-- run.py `main` (lines 408-444): a missing input, subtitle or audio file
gives 1; a video that cannot be opened gives 2 (from `_main`'s tuple).  On
any other path the exit code is 1: when the render loop raises, `_main`
returns `(False, 1, msg)`; when playback succeeds, `_main` falls off its end
returning `None`, unpacking raises `TypeError`, and the `finally` block's
`return exit_code` swallows it and returns the initial value 1. -/
def playerMainExit (inputExists subsMissing audioMissing capOpens loopRaises : Bool) : ℕ :=
  if !inputExists then 1
  else if subsMissing then 1
  else if audioMissing then 1
  else if !capOpens then 2
  else if loopRaises then 1 else 1

/-! ## Rasterizer (run.py create_frame, lines 253-263; identical in
embedded_video.py lines 238-248)

`create_frame` resizes with `cv2.resize` and converts to grayscale with
`cv2.cvtColor` (both external collaborators), then divides by 255, optionally
inverts, multiplies by `len(ascii_list)-1`, rounds with `np.round` (half to
even) and casts to `uint8`.  The per-cell value-to-index mapping is modelled
from the grayscale cell value onward. -/

/-- Normalization `gray / 255` of one source cell value. -/
def grayNorm (v : ℕ) : ℚ := (v : ℚ) / 255

/-- The optional inversion `gray = 1 - gray`. -/
def applyInvert (inverted : Bool) (g : ℚ) : ℚ :=
  if inverted then 1 - g else g

/-- The glyph index `np.round(gray * (len(ascii_list)-1))` computed by
`create_frame` for one cell: there is no other arithmetic between the
normalization/inversion and the rounding. -/
def asciiIndex (inverted : Bool) (v rampLen : ℕ) : ℤ :=
  roundHalfEven (applyInvert inverted (grayNorm v) * ((rampLen : ℚ) - 1))

/-- The `astype(np.uint8)` cast applied to the rounded index. -/
def asciiIndexU8 (inverted : Bool) (v rampLen : ℕ) : ℕ :=
  (asciiIndex inverted v rampLen).toNat % 256

/-! ## Subtitle activation window (run.py SubtitleState, lines 27-50) -/

/-- One caption cue as exposed by the subtitle collaborator: start and end
offsets in milliseconds and the caption text. -/
structure Cue where
  start : ℚ
  endMs : ℚ
  text : String
  deriving DecidableEq, Repr

/-- The subtitle window state: the time-sorted cue list, the cursor over the
next not-yet-considered cue, the active list and the staleness flag.  (The
`cached` field of the Python class belongs to `render_subs` and is not
touched by `update`.) -/
structure SubtitleState where
  subs : List Cue
  current : ℕ
  active : List Cue
  stale : Bool
  deriving DecidableEq, Repr

/-- `SubtitleState.update` (run.py lines 35-44): advance `current` while the
next cue's start is ≤ `timeMs`, appending each such cue to `active`; then
retain in `active` only the cues with `end > timeMs`; finally set `stale`
iff the cursor moved or the length of `active` changed. -/
def SubtitleState.update (st : SubtitleState) (timeMs : ℚ) : SubtitleState :=
  let taken := (st.subs.drop st.current).takeWhile fun c => decide (c.start ≤ timeMs)
  let current' := st.current + taken.length
  let active' := (st.active ++ taken).filter fun c => decide (timeMs < c.endMs)
  { st with
    current := current'
    active := active'
    stale := decide (current' ≠ st.current) || decide (active'.length ≠ st.active.length) }

/-! ## Playback clock (run.py VideoStream, lines 52-154; identical in
embedded_video.py lines 49-151) -/

/-- The mutable playback-clock state of `VideoStream`. -/
structure VideoStream where
  t0 : ℚ
  exitRequest : Bool
  elapsedTime : ℚ
  fps : ℚ
  totalFrameCount : ℤ
  duration : ℚ
  timeStep : ℚ
  lastRenderedFrame : ℤ
  lastFrameDelta : ℚ
  frameCounterBeforeUpdate : ℕ
  frameCounterUpdateTimer : ℚ
  lastUpdatedFpsCounter : ℤ
  hasSubs : Bool
  videoSubs : Option SubtitleState
  deriving DecidableEq, Repr

/-- The failure mode of `VideoStream.__init__`: the Python
`ZeroDivisionError` raised by `total_frame_count / fps` when the capture
reports fps 0. -/
inductive InitError where
  | divisionByZero : InitError
  deriving DecidableEq, Repr

/-- `VideoStream.__init__` (run.py lines 53-85): `duration` is computed as
`total_frame_count / fps` from the fps the capture reported — raising
`ZeroDivisionError` when that fps is 0 — and only afterwards is the fps
fallback (`fps <= 0` becomes 30.0) applied, feeding `time_step` but not
`duration`. -/
def VideoStream.init (reportedFps : ℚ) (frameCount : ℤ)
    (subs : Option SubtitleState) : Except InitError VideoStream :=
  if reportedFps = 0 then .error .divisionByZero
  else
    let fps' := if reportedFps ≤ 0 then 30 else reportedFps
    .ok { t0 := -1
          exitRequest := false
          elapsedTime := 0
          fps := fps'
          totalFrameCount := frameCount
          duration := (frameCount : ℚ) / reportedFps
          timeStep := 1 / fps'
          lastRenderedFrame := -1
          lastFrameDelta := -1
          frameCounterBeforeUpdate := 0
          frameCounterUpdateTimer := 0
          lastUpdatedFpsCounter := -1
          hasSubs := subs.isSome
          videoSubs := subs }

/-- `VideoStream.set_fps` (run.py lines 91-99).  The subtitle timestamp
rescale it triggers is an external `pysubs2.transform_framerate` call that
touches only cue timestamps, not the clock. -/
def VideoStream.setFps (s : VideoStream) (newFps : ℚ) : VideoStream :=
  if newFps ≤ 0 then s
  else { s with fps := newFps, timeStep := 1 / newFps }

/-- `VideoStream.time_to_frameno` (run.py lines 104-105):
`round(elapsed_time * self.fps)`. -/
def VideoStream.timeToFrameno (s : VideoStream) (elapsed : ℚ) : ℤ :=
  roundHalfEven (elapsed * s.fps)

/-- `VideoStream.should_end` (run.py lines 101-102). -/
def VideoStream.shouldEnd (s : VideoStream) : Bool :=
  decide (s.duration ≤ s.elapsedTime)

/-- `VideoStream.should_rerender` (run.py lines 107-109). -/
def VideoStream.shouldRerender (s : VideoStream) : Bool :=
  decide (s.timeToFrameno s.elapsedTime ≠ s.lastRenderedFrame)

/-- `VideoStream.time_update` (run.py lines 111-119): timestamp the start of
the frame interval, snapshot the rendered frame index and feed the elapsed
milliseconds to the subtitle window. -/
def VideoStream.timeUpdate (s : VideoStream) (now : ℚ) : VideoStream :=
  { s with
    t0 := now
    lastRenderedFrame := s.timeToFrameno s.elapsedTime
    videoSubs :=
      if s.hasSubs then s.videoSubs.map fun st => st.update (s.elapsedTime * 1000)
      else s.videoSubs }

/-- The rolling one-second FPS window loop at the end of `complete_frame`
(run.py lines 141-145): while the timer is ≥ 1, subtract 1, publish the
frame counter and reset it.  Structural recursion on a fuel bound that
dominates the number of loop iterations. -/
def fpsWindowLoop : ℕ → ℚ → ℕ → ℤ → ℚ × ℕ × ℤ
  | 0, timer, counter, last => (timer, counter, last)
  | fuel + 1, timer, counter, last =>
      if 1 ≤ timer then fpsWindowLoop fuel (timer - 1) 0 (counter : ℤ)
      else (timer, counter, last)

/-- `VideoStream.complete_frame` (run.py lines 121-145).  `t1` is the caller's
`perf_counter()` argument, `realT0` the `perf_counter()` read at entry and
`tAfter` the `perf_counter()` read after the optional pacing sleep, so that
`tAfter - realT0` is the measured wall time spent inside the call (the sleep
itself mutates no state).  The elapsed clock advances by
`real_dt = max(0, t1 - t0) + (tAfter - realT0)` — measured time, never the
nominal frame interval. -/
def VideoStream.completeFrame (s : VideoStream) (t1 realT0 tAfter : ℚ) : VideoStream :=
  let dt := max 0 (t1 - s.t0)
  let realDt := dt + (tAfter - realT0)
  let timer := s.frameCounterUpdateTimer + realDt
  let counter := s.frameCounterBeforeUpdate + 1
  let r := fpsWindowLoop (⌊timer⌋ + 1).toNat timer counter s.lastUpdatedFpsCounter
  { s with
    lastFrameDelta := dt - s.timeStep
    elapsedTime := s.elapsedTime + realDt
    frameCounterUpdateTimer := r.1
    frameCounterBeforeUpdate := r.2.1
    lastUpdatedFpsCounter := r.2.2 }

/-! ## Encoder frame selection (compress.py lines 68-91)

The read loop walks source frames `0, 1, 2, ...` with `step = source_fps /
target_fps`; a raster is appended to the chunk list (and `last_frame`
incremented) only when `int(frame_idx / step) > last_frame`. -/

/-- The encoder's selection loop, returning the source indices of the frames
appended to the chunk list, for a capture yielding `fuel` frames starting at
index `idx` with accumulator `last`. -/
def selectFramesGo (step : ℚ) : ℕ → ℤ → ℕ → List ℕ
  | _, _, 0 => []
  | idx, last, fuel + 1 =>
      if last < pyInt ((idx : ℚ) / step)
      then idx :: selectFramesGo step (idx + 1) (last + 1) fuel
      else selectFramesGo step (idx + 1) last fuel

/-- The source indices the encoder keeps, for a capture of `n` frames:
`frame_idx` and `last_frame` both start at 0. -/
def selectFrames (step : ℚ) (n : ℕ) : List ℕ :=
  selectFramesGo step 0 0 n

/-- The first cue of the specification's subtitle-window example. -/
def cueA : Cue := ⟨0, 1000, "a"⟩

/-- The second cue of the specification's subtitle-window example. -/
def cueB : Cue := ⟨500, 1500, "b"⟩

/-- The initial subtitle-window state over the example cue list. -/
def subsState0 : SubtitleState := ⟨[cueA, cueB], 0, [], false⟩

/-- A concrete playback-clock state used to witness the clock theorems. -/
def sampleStream : VideoStream :=
  { t0 := 0
    exitRequest := false
    elapsedTime := 0
    fps := 24
    totalFrameCount := 240
    duration := 10
    timeStep := 1 / 24
    lastRenderedFrame := -1
    lastFrameDelta := -1
    frameCounterBeforeUpdate := 0
    frameCounterUpdateTimer := 0
    lastUpdatedFpsCounter := -1
    hasSubs := false
    videoSubs := none }

/-! ## Helper lemmas -/

theorem roundHalfEven_le_floor_add_one (q : ℚ) : roundHalfEven q ≤ ⌊q⌋ + 1 := by
  unfold roundHalfEven
  split_ifs with h1 h2 h3 <;> omega

theorem floor_le_roundHalfEven (q : ℚ) : ⌊q⌋ ≤ roundHalfEven q := by
  unfold roundHalfEven
  split_ifs with h1 h2 h3 <;> omega

/-- Round-half-to-even is monotone. -/
theorem roundHalfEven_mono {a b : ℚ} (hab : a ≤ b) :
    roundHalfEven a ≤ roundHalfEven b := by
  rcases lt_or_eq_of_le (Int.floor_mono hab) with hlt | heq
  · calc roundHalfEven a ≤ ⌊a⌋ + 1 := roundHalfEven_le_floor_add_one a
      _ ≤ ⌊b⌋ := by omega
      _ ≤ roundHalfEven b := floor_le_roundHalfEven b
  · unfold roundHalfEven
    rw [heq]
    have hr : a - (⌊b⌋ : ℚ) ≤ b - (⌊b⌋ : ℚ) := by linarith
    split_ifs with h1 h2 h3 h4 h5 h6 h7 h8 h9 h10 <;> first
      | omega
      | (exfalso; linarith)

theorem roundHalfEven_intCast (n : ℤ) : roundHalfEven (n : ℚ) = n := by
  unfold roundHalfEven
  rw [Int.floor_intCast]
  norm_num

@[simp] theorem toBytesBE_length (n l : ℕ) : (toBytesBE n l).length = l := by
  induction l generalizing n with
  | zero => rfl
  | succ l ih => simp [toBytesBE, ih]

theorem fromBytesBE_toBytesBE {n l : ℕ} (h : n < 256 ^ l) :
    fromBytesBE (toBytesBE n l) = n := by
  induction l generalizing n with
  | zero =>
      simp [toBytesBE, fromBytesBE]
      omega
  | succ l ih =>
      have hdiv : n / 256 < 256 ^ l := by
        rw [Nat.div_lt_iff_lt_mul (by norm_num)]
        calc n < 256 ^ (l + 1) := h
          _ = 256 ^ l * 256 := by ring
      have hrec := ih hdiv
      simp only [toBytesBE, fromBytesBE] at *
      rw [List.foldl_append]
      simp only [List.foldl_cons, List.foldl_nil]
      rw [hrec]
      omega

@[simp] theorem fromBytesBE_singleton (b : ℕ) : fromBytesBE [b] = b := by
  simp [fromBytesBE]

/-- Running the chunk loop over a well-formed chunk section decodes every
chunk and succeeds. -/
theorem decodeChunks_chunkStream (decomp : List ℕ → List ℕ) (hasComp : Bool)
    (w h : ℕ) (chunks : List (List ℕ))
    (h1 : ∀ c ∈ chunks, c.length < 2 ^ 32)
    (h2 : ∀ c ∈ chunks, (if hasComp then decomp c else c).length = w * h) :
    decodeChunks decomp hasComp w h chunks.length (chunkStream chunks) =
      (chunks.map fun c => if hasComp then decomp c else c, true) := by
  induction chunks with
  | nil => rfl
  | cons c cs ih =>
      have hc1 : c.length < 2 ^ 32 := h1 c (by simp)
      have hc2 : (if hasComp then decomp c else c).length = w * h :=
        h2 c (by simp)
      show decodeChunks decomp hasComp w h (cs.length + 1)
          (toBytesBE c.length 4 ++ (c ++ chunkStream cs)) = _
      rw [decodeChunks]
      rw [List.take_left' (by simp), List.drop_left' (by simp)]
      rw [fromBytesBE_toBytesBE (by simpa using hc1)]
      rw [List.take_left' rfl, List.drop_left' rfl]
      rw [if_pos hc2]
      rw [ih (fun d hd => h1 d (by simp [hd])) (fun d hd => h2 d (by simp [hd]))]
      simp

/-- Running the chunk loop over a chunk section whose first malformed chunk
has a wrong decompressed size aborts right there: the well-formed chunks
before it are emitted and nothing after it is touched. -/
theorem decodeChunks_chunkStream_corrupt (decomp : List ℕ → List ℕ)
    (hasComp : Bool) (w h : ℕ) (goods : List (List ℕ)) (bad rest : List ℕ) (m : ℕ)
    (h1 : ∀ c ∈ goods, c.length < 2 ^ 32)
    (h2 : ∀ c ∈ goods, (if hasComp then decomp c else c).length = w * h)
    (hbadlen : bad.length < 2 ^ 32)
    (hbad : (if hasComp then decomp bad else bad).length ≠ w * h) :
    decodeChunks decomp hasComp w h (goods.length + m + 1)
        (chunkStream goods ++ (toBytesBE bad.length 4 ++ (bad ++ rest))) =
      (goods.map fun c => if hasComp then decomp c else c, false) := by
  induction goods with
  | nil =>
      rw [show ([] : List (List ℕ)).length + m + 1 = m + 1 by simp]
      rw [show chunkStream [] ++ (toBytesBE bad.length 4 ++ (bad ++ rest)) =
        toBytesBE bad.length 4 ++ (bad ++ rest) from List.nil_append _]
      rw [decodeChunks]
      rw [List.take_left' (by simp), List.drop_left' (by simp)]
      rw [fromBytesBE_toBytesBE (by simpa using hbadlen)]
      rw [List.take_left' rfl]
      rw [if_neg hbad]
      simp
  | cons c cs ih =>
      have hc1 : c.length < 2 ^ 32 := h1 c (by simp)
      have hc2 : (if hasComp then decomp c else c).length = w * h :=
        h2 c (by simp)
      rw [show (c :: cs).length + m + 1 = (cs.length + m + 1) + 1 by simp; omega]
      rw [show chunkStream (c :: cs) ++ (toBytesBE bad.length 4 ++ (bad ++ rest)) =
        toBytesBE c.length 4 ++ (c ++ (chunkStream cs ++
          (toBytesBE bad.length 4 ++ (bad ++ rest)))) by
          simp [chunkStream, List.append_assoc]]
      rw [decodeChunks]
      rw [List.take_left' (by simp), List.drop_left' (by simp)]
      rw [fromBytesBE_toBytesBE (by simpa using hc1)]
      rw [List.take_left' rfl, List.drop_left' rfl]
      rw [if_pos hc2]
      rw [ih (fun d hd => h1 d (by simp [hd])) (fun d hd => h2 d (by simp [hd]))]
      simp

/-- Reading the header of a well-formed container: the magic matches, the
flag, count, width and height fields parse back to their encoded values, and
the decoder proceeds to the chunk loop with exactly the chunk section. -/
theorem decodeContainer_mkContainer (decomp : List ℕ → List ℕ)
    (fps flag count w h : ℕ) (chunks : List (List ℕ))
    (hflag : flag < 256) (hcount : count < 2 ^ 32)
    (hw : w < 2 ^ 32) (hh : h < 2 ^ 32) :
    decodeContainer decomp (mkContainer fps flag count w h chunks) =
      if (decodeChunks decomp (flag != 0) w h count (chunkStream chunks)).2
      then .ok (flag != 0) count w h
        (decodeChunks decomp (flag != 0) w h count (chunkStream chunks)).1
      else .corrupt
        (decodeChunks decomp (flag != 0) w h count (chunkStream chunks)).1 := by
  have hcount' : count < 256 ^ 4 := by simpa using hcount
  have hw' : w < 256 ^ 4 := by simpa using hw
  have hh' : h < 256 ^ 4 := by simpa using hh
  have hcons : mkContainer fps flag count w h chunks =
      116 :: 104 :: 98 :: 97 :: (fps % 256) :: (flag % 256) ::
        (toBytesBE count 4 ++ (toBytesBE w 4 ++ (toBytesBE h 4 ++ chunkStream chunks))) := by
    simp [mkContainer, thbaMagic, toBytesBE, List.append_assoc]
  rw [hcons, decodeContainer]
  simp [thbaMagic, List.take_left', List.drop_left',
    fromBytesBE_toBytesBE hcount', fromBytesBE_toBytesBE hw',
    fromBytesBE_toBytesBE hh', Nat.mod_eq_of_lt hflag]

/-- Concatenating chunk lists concatenates their serializations. -/
theorem chunkStream_append (a b : List (List ℕ)) :
    chunkStream (a ++ b) = chunkStream a ++ chunkStream b := by
  induction a with
  | nil => simp [chunkStream]
  | cons c cs ih => simp [chunkStream, ih, List.append_assoc]

/-- A stream whose first four bytes are ASCII but differ from `"thba"` makes
the decoder return the bad-magic outcome before reading any other field. -/
theorem decodeContainer_badMagic (decomp : List ℕ → List ℕ) (s : List ℕ)
    (hascii : ∀ b ∈ s.take 4, b < 128) (hmagic : s.take 4 ≠ thbaMagic) :
    decodeContainer decomp s = .badMagic := by
  have hany : ¬((s.take 4).any (fun b => decide (128 ≤ b)) = true) := by
    simp only [List.any_eq_true, decide_eq_true_eq, not_exists, not_and]
    intro b hb
    have := hascii b hb
    omega
  unfold decodeContainer
  rw [if_neg hany, if_neg hmagic]

/-- Decoding an encoder-produced container succeeds with the original
frames, dimensions and compression flag (the shared round-trip fact). -/
theorem decode_encode_ok (fps : ℕ) (compress : Bool) (w h : ℕ)
    (frames : List (List ℕ)) (comp decomp : List ℕ → List ℕ)
    (hcount : frames.length < 2 ^ 32) (hw : w < 2 ^ 32) (hh : h < 2 ^ 32)
    (hwh : w * h < 2 ^ 32)
    (hframes : ∀ fr ∈ frames, fr.length = w * h)
    (hcomp : ∀ fr ∈ frames, decomp (comp fr) = fr)
    (hcomplen : ∀ fr ∈ frames, (comp fr).length < 2 ^ 32) :
    decodeContainer decomp (encodeContainer fps compress w h frames comp) =
      .ok compress frames.length w h frames := by
  unfold encodeContainer
  rw [decodeContainer_mkContainer decomp fps (if compress then 1 else 0)
    frames.length w h _ (by cases compress <;> norm_num) hcount hw hh]
  have hfb : ((if compress then (1 : ℕ) else 0) != 0) = compress := by
    cases compress <;> simp
  rw [hfb]
  have h1 : ∀ c ∈ frames.map (fun fr => if compress then comp fr else fr),
      c.length < 2 ^ 32 := by
    intro c hc
    obtain ⟨fr, hfr, rfl⟩ := List.mem_map.mp hc
    cases compress with
    | false => simpa [hframes fr hfr] using hwh
    | true => simpa using hcomplen fr hfr
  have h2 : ∀ c ∈ frames.map (fun fr => if compress then comp fr else fr),
      (if compress then decomp c else c).length = w * h := by
    intro c hc
    obtain ⟨fr, hfr, rfl⟩ := List.mem_map.mp hc
    cases compress with
    | false => simpa using hframes fr hfr
    | true => simp [hcomp fr hfr, hframes fr hfr]
  have hlen : frames.length =
      (frames.map fun fr => if compress then comp fr else fr).length := by simp
  rw [hlen, decodeChunks_chunkStream decomp compress w h _ h1 h2]
  have hmap : (frames.map fun fr => if compress then comp fr else fr).map
      (fun c => if compress then decomp c else c) = frames := by
    rw [List.map_map]
    refine (List.map_congr_left ?_).trans (List.map_id frames)
    intro fr hfr
    cases compress <;> simp [hcomp fr hfr]
  simp [hmap]

/-! ## Claim C1 -/

/-- Claim C1: for every finite sequence of grayscale rasters, each exactly
`width*height` bytes, and for each compression setting, decoding the byte
stream produced by encoding yields the same frame count, width, height and
compression flag, and every decoded frame equals the corresponding input
raster byte-exactly.  The chunk compressor is the external `lz4.frame`
library, abstracted as any `comp`/`decomp` pair where `decomp` inverts
`comp` on the encoded rasters. -/
theorem claim_C1_roundtrip (fps : ℕ) (compress : Bool) (w h : ℕ)
    (frames : List (List ℕ)) (comp decomp : List ℕ → List ℕ)
    (_hfps : fps < 256)
    (hcount : frames.length < 2 ^ 32) (hw : w < 2 ^ 32) (hh : h < 2 ^ 32)
    (hwh : w * h < 2 ^ 32)
    (hframes : ∀ fr ∈ frames, fr.length = w * h)
    (hcomp : ∀ fr ∈ frames, decomp (comp fr) = fr)
    (hcomplen : ∀ fr ∈ frames, (comp fr).length < 2 ^ 32) :
    decodeContainer decomp (encodeContainer fps compress w h frames comp) =
      .ok compress frames.length w h frames :=
  decode_encode_ok fps compress w h frames comp decomp hcount hw hh hwh
    hframes hcomp hcomplen

/-- Claim C1 witness: a concrete two-frame 2×1 stream with compression
enabled (identity codec) decodes back byte-exactly. -/
theorem claim_C1_roundtrip_witness :
    decodeContainer id (encodeContainer 10 true 2 1 [[7, 7], [0, 200]] id) =
      .ok true 2 2 1 [[7, 7], [0, 200]] := by
  have h := claim_C1_roundtrip 10 true 2 1 [[7, 7], [0, 200]] id id
    (by norm_num) (by norm_num) (by norm_num) (by norm_num) (by norm_num)
    (by decide) (by decide) (by decide)
  simpa using h

/-! ## Claim C2 -/

/-- Claim C2 counterexample: the claim says every stream whose first 4 bytes
differ from `"thba"` fails with `InvalidFormatError` (exit code 6); at the
concrete input `[200, 104, 98, 97]` the decoder instead crashes in
`f.read(4).decode("ascii")` with an uncaught `UnicodeDecodeError`
(interpreter exit code 1, not 6). -/
theorem claim_C2_counterexample :
    decodeContainer id [200, 104, 98, 97] = .asciiError ∧
      decodeExitCode (decodeContainer id [200, 104, 98, 97]) ≠ 6 := by
  constructor <;> decide

/-- Claim C2 (amended): for every input byte stream whose first 4 bytes are
ASCII-decodable (each < 128) but not `"thba"`, decode fails with
`InvalidFormatError` (exit code 6) and reads zero frames, before any other
header field is interpreted; a stream with a non-ASCII magic byte instead
raises `UnicodeDecodeError` (exit code 1), likewise reading zero frames. -/
theorem claim_C2_magic_validation (decomp : List ℕ → List ℕ) (s : List ℕ)
    (hascii : ∀ b ∈ s.take 4, b < 128) (hmagic : s.take 4 ≠ thbaMagic) :
    decodeContainer decomp s = .badMagic ∧
      decodeExitCode (decodeContainer decomp s) = 6 := by
  have h := decodeContainer_badMagic decomp s hascii hmagic
  exact ⟨h, by rw [h]; rfl⟩

/-- Claim C2 witness: the all-zero magic is ASCII but wrong, so decode
returns the exit-6 invalid-format outcome with zero frames. -/
theorem claim_C2_magic_validation_witness :
    decodeContainer id [0, 0, 0, 0] = .badMagic ∧
      decodeExitCode (decodeContainer id [0, 0, 0, 0]) = 6 :=
  claim_C2_magic_validation id [0, 0, 0, 0] (by decide) (by decide)

/-! ## Claim C3 -/

/-- Claim C3 counterexample: the claim says a chunk whose payload has the
wrong decompressed length is confined to that frame and the remaining chunks
are still decoded.  In this concrete 2-chunk container (width 2, height 1,
no compression) chunk 0 has 3 ≠ 2 bytes while chunk 1 is well-formed, yet
decoding crashes at chunk 0 having produced zero frames: the valid chunk 1
is never decoded. -/
theorem claim_C3_counterexample :
    decodeContainer id (mkContainer 1 0 2 2 1 [[9, 9, 9], [4, 5]]) =
      .corrupt [] := by
  decide

/-- Claim C3 (amended): a chunk whose payload decompresses to a length
different from `width*height` aborts the whole decode at that chunk (the
uncaught `ValueError` from `Image.frombytes` kills the loop): the frames
before it are emitted, and neither the bad chunk nor any chunk after it
produces a frame. -/
theorem claim_C3_bad_chunk_aborts (decomp : List ℕ → List ℕ) (fps : ℕ)
    (flag : Bool) (w h : ℕ) (goods : List (List ℕ)) (bad : List ℕ)
    (rest : List (List ℕ))
    (hw : w < 2 ^ 32) (hh : h < 2 ^ 32)
    (hcount : goods.length + rest.length + 1 < 2 ^ 32)
    (hgoodlen : ∀ c ∈ goods, c.length < 2 ^ 32)
    (hgood : ∀ c ∈ goods, (if flag then decomp c else c).length = w * h)
    (hbadlen : bad.length < 2 ^ 32)
    (hbad : (if flag then decomp bad else bad).length ≠ w * h) :
    decodeContainer decomp
        (mkContainer fps (if flag then 1 else 0)
          (goods.length + rest.length + 1) w h (goods ++ bad :: rest)) =
      .corrupt (goods.map fun c => if flag then decomp c else c) := by
  rw [decodeContainer_mkContainer decomp fps (if flag then 1 else 0)
    (goods.length + rest.length + 1) w h _ (by cases flag <;> norm_num)
    hcount hw hh]
  have hfb : ((if flag then (1 : ℕ) else 0) != 0) = flag := by
    cases flag <;> simp
  rw [hfb]
  have hstream : chunkStream (goods ++ bad :: rest) =
      chunkStream goods ++ (toBytesBE bad.length 4 ++ (bad ++ chunkStream rest)) := by
    rw [chunkStream_append]
    simp [chunkStream, List.append_assoc]
  rw [hstream]
  rw [show goods.length + rest.length + 1 = goods.length + rest.length + 1 from rfl]
  rw [decodeChunks_chunkStream_corrupt decomp flag w h goods bad
    (chunkStream rest) rest.length hgoodlen hgood hbadlen hbad]
  simp

/-- Claim C3 amended-claim witness: one good chunk, then a bad one, then
another good one — the decode emits exactly the first frame and stops. -/
theorem claim_C3_bad_chunk_aborts_witness :
    decodeContainer id (mkContainer 1 0 3 2 1 [[4, 5], [9, 9, 9], [6, 7]]) =
      .corrupt [[4, 5]] := by
  have h := claim_C3_bad_chunk_aborts id 1 false 2 1 [[4, 5]] [9, 9, 9]
    [[6, 7]] (by norm_num) (by norm_num) (by norm_num) (by decide) (by decide)
    (by decide) (by decide)
  simpa using h

/-! ## Claim C4 -/

/-- Claim C4 counterexample: the claim says `create_frame` applies gamma
correction `v^(1/2.2)` before quantizing, so that for the non-inverted
mid-gray input 128 with a 10-glyph ramp the value passed to `round` would be
`(128/255)^(1/2.2) * 9`.  In the code the value passed to `round` is
`(128/255) * 9`, which differs from the gamma-corrected value (for a base in
`(0,1)`, `x^(1/2.2) > x`), and the resulting index is
`round((128/255)*9) = 5`, not `round((128/255)^(1/2.2)*9) = 7`. -/
theorem claim_C4_counterexample :
    ((applyInvert false (grayNorm 128) * ((10 : ℚ) - 1) : ℚ) : ℝ) ≠
      (128 / 255 : ℝ) ^ ((1 : ℝ) / 2.2) * ((10 : ℝ) - 1) ∧
    asciiIndex false 128 10 = 5 := by
  constructor
  · have hlhs : ((applyInvert false (grayNorm 128) * ((10 : ℚ) - 1) : ℚ) : ℝ) =
        (128 / 255 : ℝ) * 9 := by
      simp [applyInvert, grayNorm]
      ring
    rw [hlhs]
    have hgt : (128 / 255 : ℝ) ^ ((1 : ℝ) / 1) <
        (128 / 255 : ℝ) ^ ((1 : ℝ) / 2.2) := by
      apply Real.rpow_lt_rpow_of_exponent_gt (by norm_num) (by norm_num)
      norm_num
    rw [show ((1 : ℝ) / 1) = 1 by norm_num, Real.rpow_one] at hgt
    have h9 : ((10 : ℝ) - 1) = 9 := by norm_num
    rw [h9]
    intro hcontra
    have := mul_right_cancel₀ (by norm_num : (9 : ℝ) ≠ 0) hcontra
    linarith
  · norm_num [asciiIndex, applyInvert, grayNorm, roundHalfEven]

/-- Claim C4 (amended): for every source cell value `v` in `[0,255]`, the
rasterizer computes the glyph index by normalizing to `[0,1]`, optionally
inverting (`1 - v`), and quantizing `index = round(v * (rampLength-1))`
directly — no gamma-correction step exists, so for the non-inverted mid-gray
input 128 the value passed to `round` is `(128/255) * (rampLength-1)`
itself.  The resulting index always lies in `[0, rampLength-1]`. -/
theorem claim_C4_no_gamma (v rampLen : ℕ) (hv : v ≤ 255) (hR : 1 ≤ rampLen)
    (inverted : Bool) :
    asciiIndex inverted v rampLen =
      roundHalfEven ((if inverted then 1 - (v : ℚ) / 255 else (v : ℚ) / 255) *
        ((rampLen : ℚ) - 1)) ∧
    0 ≤ asciiIndex inverted v rampLen ∧
    asciiIndex inverted v rampLen ≤ (rampLen : ℤ) - 1 ∧
    applyInvert false (grayNorm 128) * ((rampLen : ℚ) - 1) =
      (128 / 255 : ℚ) * ((rampLen : ℚ) - 1) := by
  have hg0 : 0 ≤ grayNorm v := by
    unfold grayNorm
    positivity
  have hg1 : grayNorm v ≤ 1 := by
    unfold grayNorm
    rw [div_le_one (by norm_num)]
    exact_mod_cast hv
  have hu0 : 0 ≤ applyInvert inverted (grayNorm v) := by
    unfold applyInvert
    split_ifs <;> linarith
  have hu1 : applyInvert inverted (grayNorm v) ≤ 1 := by
    unfold applyInvert
    split_ifs <;> linarith
  have hram : (0 : ℚ) ≤ (rampLen : ℚ) - 1 := by
    have : (1 : ℚ) ≤ (rampLen : ℚ) := by exact_mod_cast hR
    linarith
  refine ⟨rfl, ?_, ?_, by simp [applyInvert, grayNorm]⟩
  · have h0 : (0 : ℚ) ≤ applyInvert inverted (grayNorm v) * ((rampLen : ℚ) - 1) :=
      mul_nonneg hu0 hram
    have := roundHalfEven_mono h0
    rw [show ((0 : ℚ) = ((0 : ℤ) : ℚ)) by norm_num, roundHalfEven_intCast] at this
    exact this
  · have hle : applyInvert inverted (grayNorm v) * ((rampLen : ℚ) - 1) ≤
        (rampLen : ℚ) - 1 := by
      calc applyInvert inverted (grayNorm v) * ((rampLen : ℚ) - 1)
          ≤ 1 * ((rampLen : ℚ) - 1) := mul_le_mul_of_nonneg_right hu1 hram
        _ = (rampLen : ℚ) - 1 := one_mul _
    have h2 : roundHalfEven ((rampLen : ℚ) - 1) = (rampLen : ℤ) - 1 := by
      rw [show ((rampLen : ℚ) - 1 = (((rampLen : ℤ) - 1 : ℤ) : ℚ)) by push_cast; ring]
      exact roundHalfEven_intCast _
    exact le_trans (roundHalfEven_mono hle) (le_of_eq h2)

/-- Claim C4 amended-claim witness: at `v = 128`, ramp length 10,
non-inverted, the index is within bounds and equals the direct (gamma-free)
quantization. -/
theorem claim_C4_no_gamma_witness :
    0 ≤ asciiIndex false 128 10 ∧ asciiIndex false 128 10 ≤ 9 := by
  have h := claim_C4_no_gamma 128 10 (by norm_num) (by norm_num) false
  exact ⟨h.2.1, by simpa using h.2.2.1⟩

/-! ## Claim C5 -/

/-- On a list sorted by start time, the while loop's longest prefix of cues
with `start ≤ t` is exactly the set of all cues with `start ≤ t`. -/
theorem takeWhile_start_eq_filter (t : ℚ) (l : List Cue)
    (hs : l.Pairwise fun a b => a.start ≤ b.start) :
    l.takeWhile (fun c => decide (c.start ≤ t)) =
      l.filter fun c => decide (c.start ≤ t) := by
  induction l with
  | nil => rfl
  | cons a l ih =>
      rw [List.pairwise_cons] at hs
      by_cases ha : a.start ≤ t
      · rw [List.takeWhile_cons_of_pos (by simpa using ha),
          List.filter_cons_of_pos (by simpa using ha), ih hs.2]
      · rw [List.takeWhile_cons_of_neg (by simpa using ha),
          List.filter_cons_of_neg (by simpa using ha)]
        symm
        rw [List.filter_eq_nil_iff]
        intro b hb
        have hab := hs.1 b hb
        simp only [decide_eq_true_eq]
        intro hbt
        exact ha (le_trans hab hbt)

/-- Claim C5: for a cue list sorted ascending by start time, `update(t)`
advances the cursor over exactly the cues (from the cursor on) whose
`startMs ≤ t`, appending each to the active list, retains in `active`
exactly the cues with `endMs > t`, and sets the changed flag iff the cursor
advanced or the active list's size changed; and on the concrete cue list
`[{0,1000,"a"},{500,1500,"b"}]` the updates at 200, 700, 1200 and 1600 leave
active `{a}`, `{a,b}`, `{b}` and `{}` respectively. -/
theorem claim_C5_subtitle_window :
    (∀ (st : SubtitleState) (t : ℚ),
      st.subs.Pairwise (fun a b => a.start ≤ b.start) →
      (st.update t).current = st.current +
          ((st.subs.drop st.current).filter fun c => decide (c.start ≤ t)).length ∧
      (st.update t).active =
          ((st.active ++ (st.subs.drop st.current).filter fun c => decide (c.start ≤ t)).filter
            fun c => decide (t < c.endMs)) ∧
      ((st.update t).stale = true ↔
        (st.update t).current ≠ st.current ∨
          (st.update t).active.length ≠ st.active.length)) ∧
    ((subsState0.update 200).active = [cueA] ∧
      ((subsState0.update 200).update 700).active = [cueA, cueB] ∧
      (((subsState0.update 200).update 700).update 1200).active = [cueB] ∧
      ((((subsState0.update 200).update 700).update 1200).update 1600).active = []) := by
  constructor
  · intro st t hsorted
    have htw := takeWhile_start_eq_filter t (st.subs.drop st.current) hsorted.drop
    unfold SubtitleState.update
    simp only [htw]
    refine ⟨by trivial, by trivial, ?_⟩
    simp [Bool.or_eq_true, decide_eq_true_eq]
  · refine ⟨?_, ?_, ?_, ?_⟩ <;> decide

/-- Claim C5 witness: the general characterization applied to the concrete
sorted two-cue state at time 200. -/
theorem claim_C5_subtitle_window_witness :
    (subsState0.update 200).current = subsState0.current +
      ((subsState0.subs.drop subsState0.current).filter
        fun c => decide (c.start ≤ 200)).length :=
  (claim_C5_subtitle_window.1 subsState0 200 (by decide)).1

/-! ## Claim C6 -/

/-- Claim C6 counterexample: the claim says every entry point returns exit
code 2 for a nonexistent input path; at that concrete input (input file does
not exist) the decoder (decompress.py line 17) and the player (run.py line
410) both return 1, not 2. -/
theorem claim_C6_counterexample :
    decompressMainExit id false false [] = 1 ∧
      playerMainExit false false false true false = 1 ∧ (1 : ℕ) ≠ 2 :=
  ⟨rfl, rfl, by norm_num⟩

/-- Claim C6 (amended): the encoder exits 2 on a missing input and 0 both on
user abort and on a completed encode; the decoder exits 1 on a missing
input, 2 on an output-path collision, 6 on a wrong (ASCII) magic and 0 on a
successful decode; the player exits 1 on a missing input, subtitle or audio
file, 2 when the video cannot be opened, and 1 on every other path (render
error and even successful playback). -/
theorem claim_C6_exit_codes :
    (∀ oe rn ry ok, compressMainExit false oe rn ry ok = 2) ∧
    (∀ ok, compressMainExit true true true false ok = 0) ∧
    (compressMainExit true false false false true = 0) ∧
    (∀ (d : List ℕ → List ℕ) oc s, decompressMainExit d false oc s = 1) ∧
    (∀ (d : List ℕ → List ℕ) s, decompressMainExit d true true s = 2) ∧
    (∀ (d : List ℕ → List ℕ) (s : List ℕ), (∀ b ∈ s.take 4, b < 128) →
      s.take 4 ≠ thbaMagic → decompressMainExit d true false s = 6) ∧
    (∀ (fps : ℕ) (compress : Bool) (w h : ℕ) (frames : List (List ℕ))
      (comp decomp : List ℕ → List ℕ),
      frames.length < 2 ^ 32 → w < 2 ^ 32 → h < 2 ^ 32 → w * h < 2 ^ 32 →
      (∀ fr ∈ frames, fr.length = w * h) →
      (∀ fr ∈ frames, decomp (comp fr) = fr) →
      (∀ fr ∈ frames, (comp fr).length < 2 ^ 32) →
      decompressMainExit decomp true false
        (encodeContainer fps compress w h frames comp) = 0) ∧
    (∀ sm am co lr, playerMainExit false sm am co lr = 1) ∧
    (∀ am co lr, playerMainExit true true am co lr = 1) ∧
    (∀ co lr, playerMainExit true false true co lr = 1) ∧
    (∀ lr, playerMainExit true false false true lr = 1) ∧
    (playerMainExit true false false false false = 2) := by
  refine ⟨fun oe rn ry ok => rfl, fun ok => rfl, rfl,
    fun d oc s => rfl, fun d s => rfl, ?_, ?_,
    fun sm am co lr => rfl, fun am co lr => rfl, fun co lr => rfl,
    fun lr => by cases lr <;> rfl, rfl⟩
  · intro d s hascii hmagic
    unfold decompressMainExit
    simp [decodeContainer_badMagic d s hascii hmagic, decodeExitCode]
  · intro fps compress w h frames comp decomp hcount hw hh hwh hframes
      hcomp hcomplen
    unfold decompressMainExit
    simp [decode_encode_ok fps compress w h frames comp decomp hcount hw hh
      hwh hframes hcomp hcomplen, decodeExitCode]

/-- Claim C6 amended-claim witness: the decoder on an existing input and no
output collision exits 6 on an all-zero (wrong but ASCII) magic, and exits 0
on a well-formed single-frame 2×1 container. -/
theorem claim_C6_exit_codes_witness :
    decompressMainExit id true false [0, 0, 0, 0] = 6 ∧
      decompressMainExit id true false
        (encodeContainer 10 false 2 1 [[7, 7]] id) = 0 :=
  ⟨claim_C6_exit_codes.2.2.2.2.2.1 id [0, 0, 0, 0] (by decide) (by decide),
    claim_C6_exit_codes.2.2.2.2.2.2.1 10 false 2 1 [[7, 7]] id id
      (by norm_num) (by norm_num) (by norm_num) (by norm_num)
      (by decide) (by decide) (by decide)⟩

/-! ## Claim C7 -/

/-- Claim C7: for a fixed frame rate > 0, `time_to_frameno` — which computes
`round(elapsed_time * fps)` — is monotonically non-decreasing in the elapsed
time. -/
theorem claim_C7_frameno_monotone (s : VideoStream) (t1 t2 : ℚ)
    (hfps : 0 < s.fps) (h12 : t1 ≤ t2) :
    s.timeToFrameno t1 ≤ s.timeToFrameno t2 := by
  unfold VideoStream.timeToFrameno
  exact roundHalfEven_mono (mul_le_mul_of_nonneg_right h12 (le_of_lt hfps))

/-- Claim C7 witness: at the 24-fps sample state the mapping is monotone
from elapsed 1/2 s to 2 s. -/
theorem claim_C7_frameno_monotone_witness :
    sampleStream.timeToFrameno (1 / 2) ≤ sampleStream.timeToFrameno 2 :=
  claim_C7_frameno_monotone sampleStream (1 / 2) 2
    (by norm_num [sampleStream]) (by norm_num)

/-! ## Claim C8 -/

/-- Claim C8: `complete_frame` advances `elapsed_time` by exactly the
measured real-time delta `max(0, t1 - t0)` plus the measured post-sleep wall
time `tAfter - realT0` — never the nominal frame interval — which is
non-negative whenever the two clock readings are ordered; and no other
playback-state operation (`set_fps`, `time_update`) changes `elapsed_time`:
it never decreases and is never reset to zero. -/
theorem claim_C8_elapsed_monotone (s : VideoStream) (t1 realT0 tAfter : ℚ)
    (hclock : realT0 ≤ tAfter) :
    (s.completeFrame t1 realT0 tAfter).elapsedTime =
      s.elapsedTime + (max 0 (t1 - s.t0) + (tAfter - realT0)) ∧
    s.elapsedTime ≤ (s.completeFrame t1 realT0 tAfter).elapsedTime ∧
    (∀ f, (s.setFps f).elapsedTime = s.elapsedTime) ∧
    (∀ now, (s.timeUpdate now).elapsedTime = s.elapsedTime) := by
  refine ⟨rfl, ?_, ?_, fun now => rfl⟩
  · show s.elapsedTime ≤
      s.elapsedTime + (max 0 (t1 - s.t0) + (tAfter - realT0))
    have h1 : (0 : ℚ) ≤ max 0 (t1 - s.t0) := le_max_left _ _
    linarith
  · intro f
    unfold VideoStream.setFps
    split_ifs <;> rfl

/-- Claim C8 witness: at the sample state with clock readings 2 ≤ 3, the
elapsed time does not decrease across `complete_frame`. -/
theorem claim_C8_elapsed_monotone_witness :
    sampleStream.elapsedTime ≤
      (sampleStream.completeFrame 1 2 3).elapsedTime :=
  (claim_C8_elapsed_monotone sampleStream 1 2 3 (by norm_num)).2.1

/-! ## Claim C9 -/

/-- Claim C9: if the capture reports fps 0, `VideoStream.__init__` fails
with `ZeroDivisionError` while computing `duration = total_frame_count /
fps`, because the 30-fps fallback runs only after `duration` is computed;
for every nonzero reported fps, construction succeeds with `duration`
computed from the reported fps (the fallback only ever changes the `fps`
field, never `duration`). -/
theorem claim_C9_fps_zero_division (frameCount : ℤ)
    (subs : Option SubtitleState) :
    VideoStream.init 0 frameCount subs = .error .divisionByZero ∧
    (∀ q : ℚ, q ≠ 0 → ∃ s, VideoStream.init q frameCount subs = .ok s ∧
      s.duration = (frameCount : ℚ) / q ∧
      s.fps = (if q ≤ 0 then 30 else q)) := by
  constructor
  · rfl
  · intro q hq
    unfold VideoStream.init
    rw [if_neg hq]
    exact ⟨_, rfl, rfl, rfl⟩

/-- Claim C9 witness: fps 0 raises the division error; fps −3 (nonzero, so
no crash) yields a duration computed from −3, untouched by the 30-fps
fallback that replaces the `fps` field. -/
theorem claim_C9_fps_zero_division_witness :
    VideoStream.init 0 240 none = .error .divisionByZero ∧
      ∃ s, VideoStream.init (-3) 240 none = .ok s ∧
        s.duration = ((240 : ℤ) : ℚ) / (-3) ∧
        s.fps = (if (-3 : ℚ) ≤ 0 then 30 else -3) :=
  ⟨(claim_C9_fps_zero_division 240 none).1,
    (claim_C9_fps_zero_division 240 none).2 (-3) (by norm_num)⟩

/-! ## Claim C10 -/

/-- Every index appended by the selection loop is at least the starting
index. -/
theorem selectFramesGo_ge (step : ℚ) (fuel : ℕ) :
    ∀ (idx : ℕ) (last : ℤ), ∀ i ∈ selectFramesGo step idx last fuel, idx ≤ i := by
  induction fuel with
  | zero =>
      intro idx last i hi
      simp [selectFramesGo] at hi
  | succ fuel ih =>
      intro idx last i hi
      rw [selectFramesGo] at hi
      split_ifs at hi with hcond
      · rcases List.mem_cons.mp hi with rfl | hmem
        · exact le_refl i
        · exact le_trans (Nat.le_succ idx) (ih (idx + 1) (last + 1) i hmem)
      · exact le_trans (Nat.le_succ idx) (ih (idx + 1) last i hi)

/-- Claim C10: the encoder appends a raster only when
`int(frame_idx / step) > last_frame`, which is false at `frame_idx = 0`
(the truncated quotient is 0 and `last_frame` starts at 0), so the first
source frame is never emitted: every selected source index is ≥ 1, for
every nonzero step (= source fps / target fps) and every capture length. -/
theorem claim_C10_first_frame_skipped (step : ℚ) (n : ℕ) (_hstep : step ≠ 0) :
    (∀ i ∈ selectFrames step n, 1 ≤ i) ∧ 0 ∉ selectFrames step n := by
  have hmain : ∀ i ∈ selectFrames step n, 1 ≤ i := by
    unfold selectFrames
    cases n with
    | zero =>
        intro i hi
        simp [selectFramesGo] at hi
    | succ m =>
        intro i hi
        rw [selectFramesGo] at hi
        rw [if_neg (by norm_num [pyInt])] at hi
        exact selectFramesGo_ge step m 1 0 i hi
  exact ⟨hmain, fun h0 => by simpa using hmain 0 h0⟩

/-- Claim C10 witness: with source 30 fps and target 10 fps (step 3) over a
10-frame capture, no selected index is 0. -/
theorem claim_C10_first_frame_skipped_witness :
    (∀ i ∈ selectFrames 3 10, 1 ≤ i) ∧ 0 ∉ selectFrames 3 10 :=
  claim_C10_first_frame_skipped 3 10 (by norm_num)

end AsciiPlayer
